import Mathlib

/-!
Verification of the resilience and orchestration layer of the Vectoria
repository: the strategy-chain orchestrator, the retry executors, the Recraft
cooldown circuit breaker, the TTL+LRU cache, the sliding-window rate limiter,
and the temp-directory janitor. Each definition is a shallow embedding of the
corresponding JavaScript function; asynchronous operations and external calls
are modelled by explicit outcome values (`Except`), and wall-clock time by an
explicit `now : Int` parameter (milliseconds, as `Date.now()`).
-/

namespace Vectoria

/-- Shallow embedding of the StrategyOutcome objects built in
`controllers/generationController.js`. The JS field `partial` is called
`isPartial` here. `strategy` is the name stamped by the orchestrator
(absent on outcomes as produced by the strategies themselves). -/
structure Outcome where
  success : Bool
  isPartial : Bool
  mode : String
  svgUrl : Option String
  svgCode : Option String
  rasterImageUrl : Option String
  enhancedPrompt : String
  originalPrompt : String
  message : String
  correlationId : String
  strategy : Option String := none
deriving Repr, DecidableEq

/-- The constant FALLBACK_SIMPLE_SVG of `generationController.js` (lines 82-87). -/
def FALLBACK_SIMPLE_SVG : String :=
  "<svg xmlns=\"http://www.w3.org/2000/svg\" viewBox=\"0 0 100 100\">\n  <rect width=\"100\" height=\"100\" fill=\"#f0f0f0\"/>\n  <circle cx=\"50\" cy=\"40\" r=\"20\" fill=\"#7c3aed\"/>\n  <rect x=\"35\" y=\"60\" width=\"30\" height=\"30\" rx=\"5\" fill=\"#ec4899\"/>\n  <text x=\"50\" y=\"95\" text-anchor=\"middle\" font-family=\"Arial\" font-size=\"8\" fill=\"#333\">Generated Design</text>\n</svg>"

/-- Behaviour of one strategy when the orchestrator awaits `strategy.fn()`:
it throws, resolves to a falsy value (`null`), or resolves to an outcome. -/
inductive StratBehavior where
  | throws
  | empty
  | returns (o : Outcome)
deriving Repr, DecidableEq

/-- Whether a strategy behaviour yields a truthy result (the `if (result)`
test in the orchestrator loop). -/
def returnsSome : StratBehavior → Bool
  | .returns _ => true
  | _ => false

/-- The minimal critical-failure response built at the bottom of
`generateSvgWithFallbacks` (`generationController.js` lines 384-395). -/
def criticalFailureOutcome (userPrompt cid : String) : Outcome :=
  { success := false
    isPartial := true
    mode := "critical_failure"
    svgCode := some FALLBACK_SIMPLE_SVG
    svgUrl := none
    rasterImageUrl := none
    enhancedPrompt := ""
    originalPrompt := userPrompt
    message := "All services are currently unavailable. Please check your configuration and try again."
    correlationId := cid }

/-- Shallow embedding of `generateSvgWithFallbacks` (`generationController.js`
lines 361-396): try each strategy in order; a thrown error is caught and the
next strategy tried; a falsy result moves on as well; a truthy result is
stamped with the strategy's name and returned immediately. The second
component records the names of the strategies that were invoked, in order.
The function is total: it always returns an Outcome and never propagates an
exception. -/
def generateSvgWithFallbacks (userPrompt cid : String) :
    List (String × StratBehavior) → Outcome × List String
  | [] => (criticalFailureOutcome userPrompt cid, [])
  | (name, b) :: rest =>
    match b with
    | .returns o => ({ o with strategy := some name }, [name])
    | _ =>
      let r := generateSvgWithFallbacks userPrompt cid rest
      (r.1, name :: r.2)

/-- C1. The orchestrator attempts strategies in order; the first strategy
returning a non-empty outcome has its name stamped on the returned outcome
and no later strategy is invoked (the invocation trace is exactly the failing
prefix plus the succeeding strategy); a strategy that throws or returns empty
just moves the loop on; and when every strategy returns empty or throws, the
fixed built-in critical-failure outcome is returned. Exceptions are never
propagated: `generateSvgWithFallbacks` is a total function into `Outcome`. -/
theorem orchestrator_first_success_short_circuits
    (userPrompt cid : String) :
    (∀ (pre : List (String × StratBehavior)) (name : String) (o : Outcome)
       (post : List (String × StratBehavior)),
       (∀ s ∈ pre, returnsSome s.2 = false) →
       generateSvgWithFallbacks userPrompt cid (pre ++ (name, .returns o) :: post)
         = ({ o with strategy := some name }, pre.map Prod.fst ++ [name])) ∧
    (∀ strategies : List (String × StratBehavior),
       (∀ s ∈ strategies, returnsSome s.2 = false) →
       generateSvgWithFallbacks userPrompt cid strategies
         = (criticalFailureOutcome userPrompt cid, strategies.map Prod.fst)) := by
  constructor
  · intro pre name o post hpre
    induction pre with
    | nil => rfl
    | cons s rest ih =>
      obtain ⟨sn, sb⟩ := s
      have hs : returnsSome sb = false := hpre (sn, sb) (List.mem_cons_self _ _)
      have hrest : ∀ s ∈ rest, returnsSome s.2 = false := by
        intro x hx; exact hpre x (List.mem_cons_of_mem _ hx)
      cases sb with
      | throws =>
        simp only [List.cons_append, generateSvgWithFallbacks, List.append_eq,
          ih hrest, List.map_cons, List.cons_append]
      | empty =>
        simp only [List.cons_append, generateSvgWithFallbacks, List.append_eq,
          ih hrest, List.map_cons, List.cons_append]
      | returns o' => simp [returnsSome] at hs
  · intro strategies hall
    induction strategies with
    | nil => rfl
    | cons s rest ih =>
      obtain ⟨sn, sb⟩ := s
      have hs : returnsSome sb = false := hall (sn, sb) (List.mem_cons_self _ _)
      have hrest : ∀ s ∈ rest, returnsSome s.2 = false := by
        intro x hx; exact hall x (List.mem_cons_of_mem _ hx)
      cases sb with
      | throws => simp only [generateSvgWithFallbacks, ih hrest, List.map_cons]
      | empty => simp only [generateSvgWithFallbacks, ih hrest, List.map_cons]
      | returns o' => simp [returnsSome] at hs

/-- A concrete outcome used by witnesses. -/
def sampleOutcome : Outcome :=
  { success := true
    isPartial := false
    mode := "full"
    svgUrl := some "/temp/x.svg"
    svgCode := some "<svg/>"
    rasterImageUrl := none
    enhancedPrompt := "enhanced"
    originalPrompt := "p"
    message := "ok"
    correlationId := "c" }

/-- Witness for C1: with strategies `[A throws, B returns, C returns]`, the
result is B's outcome stamped `B`, and `C` is not invoked; with all three
throwing or empty, the critical-failure outcome is returned. -/
theorem orchestrator_first_success_short_circuits_witness :
    generateSvgWithFallbacks "p" "c"
        [("A", .throws), ("B", .returns sampleOutcome), ("C", .returns sampleOutcome)]
      = ({ sampleOutcome with strategy := some "B" }, ["A", "B"]) ∧
    generateSvgWithFallbacks "p" "c" [("A", .throws), ("B", .empty), ("C", .throws)]
      = (criticalFailureOutcome "p" "c", ["A", "B", "C"]) := by
  constructor
  · have h := (orchestrator_first_success_short_circuits "p" "c").1
      [("A", .throws)] "B" sampleOutcome [("C", .returns sampleOutcome)]
      (by intro s hs; simp at hs; subst hs; rfl)
    simpa using h
  · exact (orchestrator_first_success_short_circuits "p" "c").2
      [("A", .throws), ("B", .empty), ("C", .throws)]
      (by intro s hs; simp at hs; rcases hs with h | h | h <;> subst h <;> rfl)

/-- Abstract JS error value, carrying exactly the fields consulted by the two
retry predicates: `err.status` (used by `geminiService.withRetries`),
`err.response.status` and `err.code` (used by `recraftService.getWithRetry`),
and `err.message`. `none` models an absent (undefined) field. -/
structure JsErr where
  status : Option Nat := none
  responseStatus : Option Nat := none
  code : Option String := none
  message : String := ""
deriving Repr, DecidableEq

/-- The retryable HTTP status codes shared by both retry executors. -/
def retryStatusList : List Nat := [429, 500, 502, 503, 504]

/-- JS truthiness fallback to `err?.code`: a missing or empty-string code is
falsy and selects nothing. -/
def codeFallback (e : JsErr) : Option (Nat ⊕ String) :=
  match e.code with
  | some c => if c ≠ "" then some (Sum.inr c) else none
  | none => none

/-- `err?.status || err?.code` as evaluated in `geminiService.withRetries`
(a zero or missing status is falsy and falls through to the code). -/
def geminiSelectedCode (e : JsErr) : Option (Nat ⊕ String) :=
  match e.status with
  | some s => if s ≠ 0 then some (Sum.inl s) else codeFallback e
  | none => codeFallback e

/-- `err?.response?.status || err?.code` as evaluated in
`recraftService.getWithRetry`. -/
def recraftSelectedCode (e : JsErr) : Option (Nat ⊕ String) :=
  match e.responseStatus with
  | some s => if s ≠ 0 then some (Sum.inl s) else codeFallback e
  | none => codeFallback e

/-- Whether every character of the list is a decimal digit. -/
def charsAreDigits : List Char → Bool
  | [] => true
  | c :: cs => c.isDigit && charsAreDigits cs

/-- Decimal value of a digit list (most significant first). -/
def charsToNat : List Char → Nat → Nat
  | [], acc => acc
  | c :: cs, acc => charsToNat cs (acc * 10 + (c.toNat - 48))

/-- `Number(s)` restricted to the use made of it by the retry predicates:
a plain decimal string yields its value; anything else yields NaN, which is
modelled as `none` (NaN is never in the retry status list). -/
def strToNumber? (s : String) : Option Nat :=
  if s.data ≠ [] && charsAreDigits s.data then some (charsToNat s.data 0) else none

/-- `[429, 500, 502, 503, 504].includes(Number(code))`: a numeric code is
compared directly; a string code is coerced with `Number` (a non-numeric
string gives NaN, which is never in the list). -/
def numberInRetryList : Nat ⊕ String → Bool
  | Sum.inl n => decide (n ∈ retryStatusList)
  | Sum.inr s =>
    match strToNumber? s with
    | some n => decide (n ∈ retryStatusList)
    | none => false

/-- The retryable predicate of `geminiService.withRetries` (lines 285-302):
`[429,500,502,503,504].includes(Number(code)) || !code` where
`code = err?.status || err?.code || ''`. An error with no status and no code
is retryable; an error whose code is a non-numeric string such as
`ECONNRESET` is NOT retryable. -/
def geminiRetryable (e : JsErr) : Bool :=
  match geminiSelectedCode e with
  | none => true
  | some sel => numberInRetryList sel

/-- Character-list prefix test (for the substring search below). -/
def charsHasPrefix : List Char → List Char → Bool
  | [], _ => true
  | _ :: _, [] => false
  | p :: ps, c :: cs => p == c && charsHasPrefix ps cs

/-- Character-list substring test (for the substring search below). -/
def charsContains (pat : List Char) : List Char → Bool
  | [] => charsHasPrefix pat []
  | c :: cs => charsHasPrefix pat (c :: cs) || charsContains pat cs

/-- The case-insensitive regex test `/socket hang up/i.test(message)`. -/
def containsSocketHangUp (msg : String) : Bool :=
  charsContains "socket hang up".data (msg.data.map Char.toLower)

/-- The retryable predicate of `recraftService.getWithRetry` (lines 438-462):
status in 429/500/502/503/504, or code `ECONNRESET` or `ETIMEDOUT`, or a
`socket hang up` message. -/
def recraftRetryable (e : JsErr) : Bool :=
  (match recraftSelectedCode e with
   | some sel => numberInRetryList sel
   | none => false)
  || e.code == some "ECONNRESET"
  || e.code == some "ETIMEDOUT"
  || containsSocketHangUp e.message

/-- The shared retry loop shape of `geminiService.withRetries` and
`recraftService.getWithRetry`: invoke `op attempt`; on success return; on a
non-retryable error or an exhausted budget re-raise the last error; otherwise
sleep (jittered exponential backoff, irrelevant to the result) and retry with
`attempt + 1`. `remaining` counts the attempts still allowed after this one
(the loop runs `attempt = 0 .. maxRetries`). The second component counts how
many times `op` was invoked. -/
def retryLoop {α : Type} (retryable : JsErr → Bool) (op : Nat → Except JsErr α) :
    Nat → Nat → Except JsErr α × Nat
  | attempt, remaining =>
    match op attempt with
    | .ok v => (.ok v, 1)
    | .error e =>
      match remaining with
      | 0 => (.error e, 1)
      | r + 1 =>
        if retryable e then
          let rest := retryLoop retryable op (attempt + 1) r
          (rest.1, rest.2 + 1)
        else (.error e, 1)

/-- `geminiService.withRetries(fn, { maxRetries })` with the loop
`for (attempt = 0; attempt <= maxRetries; attempt++)`. -/
def withRetries {α : Type} (op : Nat → Except JsErr α) (maxRetries : Nat := 3) :
    Except JsErr α × Nat :=
  retryLoop geminiRetryable op 0 maxRetries

/-- `recraftService.getWithRetry` with its fixed `MAX_RETRIES = 3`. -/
def getWithRetry {α : Type} (op : Nat → Except JsErr α) : Except JsErr α × Nat :=
  retryLoop recraftRetryable op 0 3

/-- Counting lemma for the retry loop: `k` retryable-classified failures
followed by a success within the budget yield the success after exactly
`k + 1` invocations. -/
theorem retryLoop_succeeds {α : Type} (retryable : JsErr → Bool)
    (op : Nat → Except JsErr α) (v : α) :
    ∀ (k : Nat) (attempt remaining : Nat),
      (∀ i, i < k → ∃ e, op (attempt + i) = .error e ∧ retryable e = true) →
      op (attempt + k) = .ok v → k ≤ remaining →
      retryLoop retryable op attempt remaining = (.ok v, k + 1) := by
  intro k
  induction k with
  | zero =>
    intro attempt remaining _ hok _
    rw [retryLoop]
    simp only [Nat.add_zero] at hok
    rw [hok]
  | succ n ih =>
    intro attempt remaining hfail hok hle
    obtain ⟨e, he, hre⟩ := hfail 0 (Nat.succ_pos n)
    rw [retryLoop]
    simp only [Nat.add_zero] at he
    rw [he]
    obtain ⟨r, rfl⟩ : ∃ r, remaining = r + 1 := by
      cases remaining with
      | zero => omega
      | succ r => exact ⟨r, rfl⟩
    simp only [hre, if_true]
    have hrec := ih (attempt + 1) r
      (by
        intro i hi
        obtain ⟨e', he', hre'⟩ := hfail (i + 1) (by omega)
        exact ⟨e', by rw [show attempt + 1 + i = attempt + (i + 1) by omega]; exact he', hre'⟩)
      (by rw [show attempt + 1 + n = attempt + (n + 1) by omega]; exact hok)
      (by omega)
    rw [hrec]

/-- Terminal lemma for the retry loop: a first error classified non-retryable
is re-raised after exactly one invocation. -/
theorem retryLoop_terminal {α : Type} (retryable : JsErr → Bool)
    (op : Nat → Except JsErr α) (e : JsErr) (remaining : Nat)
    (he : op 0 = .error e) (hre : retryable e = false) :
    retryLoop retryable op 0 remaining = (.error e, 1) := by
  rw [retryLoop, he]
  cases remaining with
  | zero => rfl
  | succ r => simp [hre]

/-- A connection-reset error as produced by Node's http stack. -/
def connResetErr : JsErr := { code := some "ECONNRESET", message := "read ECONNRESET" }

/-- C2 (amended). Counting behaviour as claimed, for both executors: `k`
transient-classified failures followed by a success within the attempt budget
return the success after exactly `k+1` invocations, and a first error
classified terminal is re-raised after exactly one invocation. The retryable
classification, however, differs between the two executors: recraft's
`getWithRetry` treats exactly HTTP 429/500/502/503/504, the codes
`ECONNRESET`/`ETIMEDOUT` and `socket hang up` messages as transient and
everything else as terminal, while gemini's `withRetries` treats exactly
HTTP 429/500/502/503/504 and errors carrying no status and no code as
transient — connection-reset/timeout codes are terminal for it. -/
theorem retry_executor_amended :
    (∀ {α : Type} (op : Nat → Except JsErr α) (v : α) (k maxRetries : Nat),
       (∀ i, i < k → ∃ e, op i = .error e ∧ geminiRetryable e = true) →
       op k = .ok v → k ≤ maxRetries →
       withRetries op maxRetries = (.ok v, k + 1)) ∧
    (∀ {α : Type} (op : Nat → Except JsErr α) (v : α) (k : Nat),
       (∀ i, i < k → ∃ e, op i = .error e ∧ recraftRetryable e = true) →
       op k = .ok v → k ≤ 3 →
       getWithRetry op = (.ok v, k + 1)) ∧
    (∀ {α : Type} (op : Nat → Except JsErr α) (e : JsErr) (maxRetries : Nat),
       op 0 = .error e → geminiRetryable e = false →
       withRetries op maxRetries = (.error e, 1)) ∧
    (∀ {α : Type} (op : Nat → Except JsErr α) (e : JsErr),
       op 0 = .error e → recraftRetryable e = false →
       getWithRetry op = (.error e, 1)) ∧
    (∀ s : Nat, s ≠ 0 →
       recraftRetryable { responseStatus := some s } = decide (s ∈ retryStatusList)) ∧
    (recraftRetryable { code := some "ECONNRESET" } = true) ∧
    (recraftRetryable { code := some "ETIMEDOUT" } = true) ∧
    (recraftRetryable { message := "read: Socket Hang Up" } = true) ∧
    (∀ (s : Nat) (c m : String), s ≠ 0 → s ∉ retryStatusList →
       c ≠ "ECONNRESET" → c ≠ "ETIMEDOUT" → containsSocketHangUp m = false →
       recraftRetryable { responseStatus := some s, code := some c, message := m } = false) ∧
    (geminiRetryable {} = true) ∧
    (∀ s : Nat, s ≠ 0 →
       geminiRetryable { status := some s } = decide (s ∈ retryStatusList)) ∧
    (∀ (c m : String), c ≠ "" → strToNumber? c = none →
       geminiRetryable { status := none, code := some c, message := m } = false) := by
  refine ⟨?_, ?_, ?_, ?_, ?_, by decide, by decide, by decide, ?_, by decide, ?_, ?_⟩
  · intro α op v k maxRetries hfail hok hle
    exact retryLoop_succeeds geminiRetryable op v k 0 maxRetries
      (by simpa using hfail) (by simpa using hok) hle
  · intro α op v k hfail hok hle
    exact retryLoop_succeeds recraftRetryable op v k 0 3
      (by simpa using hfail) (by simpa using hok) hle
  · intro α op e maxRetries he hre
    exact retryLoop_terminal geminiRetryable op e maxRetries he hre
  · intro α op e he hre
    exact retryLoop_terminal recraftRetryable op e 3 he hre
  · intro s hs
    simp [recraftRetryable, recraftSelectedCode, codeFallback, numberInRetryList, hs,
      containsSocketHangUp, charsContains, charsHasPrefix]
  · intro s c m hs hnotin hc1 hc2 hm
    simp [recraftRetryable, recraftSelectedCode, codeFallback, numberInRetryList, hs,
      hnotin, hc1, hc2, hm]
  · intro s hs
    simp [geminiRetryable, geminiSelectedCode, codeFallback, numberInRetryList, hs]
  · intro c m hc hnum
    simp [geminiRetryable, geminiSelectedCode, codeFallback, numberInRetryList, hc, hnum]

/-- Witness for C2 (amended): two 503 failures then a success return the
success after exactly 3 invocations; a connection-reset first error is
re-raised by gemini's executor after exactly one invocation; and 502 is
classified transient by both predicates. -/
theorem retry_executor_amended_witness :
    withRetries (fun i => if i < 2 then Except.error { status := some 503 } else Except.ok 7) 3
      = (Except.ok 7, 3) ∧
    withRetries (fun _ => (Except.error connResetErr : Except JsErr Nat)) 3
      = (Except.error connResetErr, 1) ∧
    recraftRetryable { responseStatus := some 502 } = true := by
  refine ⟨?_, ?_, ?_⟩
  · exact retry_executor_amended.1
      (fun i => if i < 2 then Except.error { status := some 503 } else Except.ok 7) 7 2 3
      (by intro i hi; exact ⟨{ status := some 503 }, by simp [hi], by decide⟩)
      (by rfl) (by decide)
  · exact retry_executor_amended.2.2.1 (fun _ => (Except.error connResetErr : Except JsErr Nat))
      connResetErr 3 rfl (by decide)
  · have h := retry_executor_amended.2.2.2.2.1 502 (by decide)
    simpa using h

/-- C2 counterexample: the claim says the retry executors classify
connection-reset errors as transient, but `geminiService.withRetries`
classifies `ECONNRESET` as terminal (its predicate only consults
`Number(err.status || err.code || '')` and JS truthiness): the operation is
invoked exactly once instead of being retried. `getWithRetry` disagrees. -/
theorem retry_executor_counterexample :
    geminiRetryable connResetErr = false ∧
    recraftRetryable connResetErr = true ∧
    withRetries (fun _ => (Except.error connResetErr : Except JsErr Nat)) 3
      = (Except.error connResetErr, 1) := by
  refine ⟨by decide, by decide, ?_⟩
  rfl

/-- The module-level credit-management state of `recraftService.js`
(lines 676-677): `recraftCooldownUntil` (epoch ms) and `creditWarningCount`. -/
structure CooldownState where
  recraftCooldownUntil : Int
  creditWarningCount : Nat
deriving Repr, DecidableEq

/-- Initial state: `recraftCooldownUntil = 0`, `creditWarningCount = 0`. -/
def initialCooldownState : CooldownState :=
  { recraftCooldownUntil := 0, creditWarningCount := 0 }

/-- Default `RECRAFT_COOLDOWN_MINUTES`. -/
def COOLDOWN_MINUTES : Int := 20

/-- `isRecraftInCooldown()` (`recraftService.js` lines 679-681):
`Date.now() < recraftCooldownUntil`, a side-effect-free read. -/
def isRecraftInCooldown (s : CooldownState) (now : Int) : Bool :=
  decide (now < s.recraftCooldownUntil)

/-- `startCooldown(minutes)` (`recraftService.js` lines 683-695): set the
deadline to `now + minutes * 60_000`, bump the warning count, and once the
count exceeds 3 append a fixed extra 10 minutes to the deadline. -/
def startCooldown (s : CooldownState) (now : Int) (minutes : Int := COOLDOWN_MINUTES) :
    CooldownState :=
  let u := now + minutes * 60000
  let c := s.creditWarningCount + 1
  if c > 3 then
    { recraftCooldownUntil := u + 10 * 60000, creditWarningCount := c }
  else
    { recraftCooldownUntil := u, creditWarningCount := c }

/-- A sequence of consecutive trips at the given times, all with the same
duration `m`. -/
def runTrips (m : Int) : CooldownState → List Int → CooldownState
  | s, [] => s
  | s, t :: ts => runTrips m (startCooldown s t m) ts

/-- One trip never moves the deadline earlier than the deadline set by the
previous trip, when trips use one fixed duration and time does not go
backwards: the base deadline grows with `now`, and the 10-minute escalation
penalty, once active (count above 3), stays active for every later trip. -/
theorem startCooldown_step_mono (s : CooldownState) (tp now m : Int) (h : tp ≤ now) :
    (startCooldown s tp m).recraftCooldownUntil
      ≤ (startCooldown (startCooldown s tp m) now m).recraftCooldownUntil := by
  unfold startCooldown
  by_cases h3 : s.creditWarningCount + 1 > 3
  · have h4 : s.creditWarningCount + 1 + 1 > 3 := by omega
    simp only [h3, if_true]
    simp only [h4, if_true]
    omega
  · simp only [h3, if_false]
    by_cases h4 : s.creditWarningCount + 1 + 1 > 3
    · simp only [h4, if_true]
      omega
    · simp only [h4, if_false]
      omega

/-- C3. Immediately after `startCooldown(m)` (with positive `m`),
`isRecraftInCooldown()` is true; after a single trip from the initial state,
the cooldown lapses with no explicit reset — once the clock reaches
`m` minutes past the trip, `isRecraftInCooldown()` is false; and four trips
in quick succession (non-decreasing times) put the deadline strictly later
than a single trip does, because the fourth trip pushes the warning count
above 3 and appends the fixed 10-minute penalty. -/
theorem cooldown_trip_and_escalation (m t0 t1 t2 t3 tLater : Int) :
    (0 < m → ∀ s : CooldownState,
      isRecraftInCooldown (startCooldown s t0 m) t0 = true) ∧
    (t0 + m * 60000 ≤ tLater →
      isRecraftInCooldown (startCooldown initialCooldownState t0 m) tLater = false) ∧
    (t0 ≤ t1 → t1 ≤ t2 → t2 ≤ t3 →
      (startCooldown initialCooldownState t0 m).recraftCooldownUntil
        < (startCooldown (startCooldown (startCooldown
            (startCooldown initialCooldownState t0 m) t1 m) t2 m) t3 m).recraftCooldownUntil) := by
  refine ⟨?_, ?_, ?_⟩
  · intro hm s
    unfold startCooldown isRecraftInCooldown
    by_cases h3 : s.creditWarningCount + 1 > 3
    · simp only [h3, if_true]
      simp only [decide_eq_true_eq]
      omega
    · simp only [h3, if_false]
      simp only [decide_eq_true_eq]
      omega
  · intro hlate
    unfold startCooldown isRecraftInCooldown initialCooldownState
    norm_num
    omega
  · intro h01 h12 h23
    unfold startCooldown initialCooldownState
    norm_num
    omega

/-- Witness for C3: with the default 20-minute duration, a trip at time 0 is
in cooldown at time 0, out of cooldown at 20 minutes, and four immediate
trips set a strictly later deadline than one trip. -/
theorem cooldown_trip_and_escalation_witness :
    isRecraftInCooldown (startCooldown initialCooldownState 0 20) 0 = true ∧
    isRecraftInCooldown (startCooldown initialCooldownState 0 20) 1200000 = false ∧
    (startCooldown initialCooldownState 0 20).recraftCooldownUntil
      < (startCooldown (startCooldown (startCooldown
          (startCooldown initialCooldownState 0 20) 0 20) 0 20) 0 20).recraftCooldownUntil := by
  obtain ⟨h1, h2, h3⟩ := cooldown_trip_and_escalation 20 0 0 0 0 1200000
  exact ⟨h1 (by norm_num) initialCooldownState, h2 (by norm_num),
    h3 (le_refl 0) (le_refl 0) (le_refl 0)⟩

/-- C10. Across any sequence of consecutive trips with one fixed duration and
non-decreasing trip times, the cooldown deadline `recraftCooldownUntil` is
monotonically non-decreasing: each consecutive trip's deadline is at least the
previous one's, and hence the deadline at the end of any run of further trips
is at least the deadline set by the first trip. -/
theorem cooldown_deadline_monotone (s0 : CooldownState) (tp now m : Int) (ts : List Int) :
    (tp ≤ now →
      (startCooldown s0 tp m).recraftCooldownUntil
        ≤ (startCooldown (startCooldown s0 tp m) now m).recraftCooldownUntil) ∧
    (List.Chain' (· ≤ ·) (tp :: ts) →
      (startCooldown s0 tp m).recraftCooldownUntil
        ≤ (runTrips m (startCooldown s0 tp m) ts).recraftCooldownUntil) := by
  constructor
  · exact startCooldown_step_mono s0 tp now m
  · intro hchain
    induction ts generalizing s0 tp with
    | nil => simp [runTrips]
    | cons t ts ih =>
      have htp : tp ≤ t := (List.chain'_cons.mp hchain).1
      have hchain' : List.Chain' (· ≤ ·) (t :: ts) := (List.chain'_cons.mp hchain).2
      calc (startCooldown s0 tp m).recraftCooldownUntil
          ≤ (startCooldown (startCooldown s0 tp m) t m).recraftCooldownUntil :=
            startCooldown_step_mono s0 tp t m htp
        _ ≤ (runTrips m (startCooldown (startCooldown s0 tp m) t m) ts).recraftCooldownUntil :=
            ih (startCooldown s0 tp m) t hchain'
        _ = (runTrips m (startCooldown s0 tp m) (t :: ts)).recraftCooldownUntil := rfl

/-- Witness for C10: five consecutive trips (crossing the escalation
threshold) at non-decreasing times have non-decreasing deadlines. -/
theorem cooldown_deadline_monotone_witness :
    (startCooldown initialCooldownState 10 20).recraftCooldownUntil
      ≤ (startCooldown (startCooldown initialCooldownState 10 20) 15 20).recraftCooldownUntil ∧
    (startCooldown initialCooldownState 10 20).recraftCooldownUntil
      ≤ (runTrips 20 (startCooldown initialCooldownState 10 20)
          [20, 30, 40, 50]).recraftCooldownUntil := by
  constructor
  · exact (cooldown_deadline_monotone initialCooldownState 10 15 20 []).1 (by norm_num)
  · exact (cooldown_deadline_monotone initialCooldownState 10 0 20 [20, 30, 40, 50]).2
      (by norm_num)

/-- The external calls `vectorizeImage` can make: the two metered Recraft
endpoints (removeBackground and vectorize) and the local potrace path. -/
inductive ProviderCall where
  | recraftRemoveBg
  | recraftVectorize
  | localPotrace
deriving Repr, DecidableEq

/-- Result shape of a vectorization (`{ svgCode, method, ... }`). -/
structure VecResult where
  svgCode : String
  method : String
deriving Repr, DecidableEq

/-- Environment of one `vectorizeImage` call (`recraftService.js` lines
768-892): the guard reads and the outcome of each external operation.
`recraftVec = .ok none` models a response from which no truthy SVG came back
without a throw; `.error` models a thrown error. -/
structure VecEnv where
  inCooldown : Bool
  localAvailable : Bool
  hasApiKey : Bool
  hasRaster : Bool
  recraftVec : Except JsErr (Option String)
  localVec : Except JsErr String

/-- `intelligentLocalVectorization` (`recraftService.js` lines 985-1037):
throws when potrace is unavailable, otherwise propagates the local
vectorizer's outcome and labels the result `local_intelligent`. -/
def intelligentLocalVectorization (env : VecEnv) : Except JsErr VecResult :=
  if !env.localAvailable then
    .error { message := "Local vectorization not available. Install potrace." }
  else
    match env.localVec with
    | .ok svg => .ok { svgCode := svg, method := "local_intelligent" }
    | .error e => .error e

/-- Shallow embedding of `vectorizeImage` (`recraftService.js` lines
768-892), with the calls to Recraft endpoints recorded in the second
component. Control flow from the source: if in cooldown AND local
vectorization is available, return the local fallback (no Recraft call);
note there is no else — when local vectorization is unavailable the code
falls through. Then: missing API key → local or throw. With a raster, the
image is prepared (`prepareImageForVectorization`, falling back to
`prepareUploadBasic`; both succeed given a raster), background removal is
attempted (a metered Recraft call whose failure only logs), then the Recraft
vectorize endpoint is attempted; a truthy SVG returns, anything else falls
through to the intelligent local fallback. -/
def vectorizeImage (env : VecEnv) : Except JsErr VecResult × List ProviderCall :=
  if env.inCooldown && env.localAvailable then
    (intelligentLocalVectorization env, [ProviderCall.localPotrace])
  else if !env.hasApiKey then
    if env.localAvailable then
      (intelligentLocalVectorization env, [ProviderCall.localPotrace])
    else
      (.error { message := "RECRAFT_API_KEY missing and local vectorization unavailable." }, [])
  else if env.hasRaster then
    match env.recraftVec with
    | .ok (some svg) =>
      (.ok { svgCode := svg, method := "recraft_api_bg_removed" },
       [ProviderCall.recraftRemoveBg, ProviderCall.recraftVectorize])
    | .ok none =>
      (intelligentLocalVectorization env,
       [ProviderCall.recraftRemoveBg, ProviderCall.recraftVectorize, ProviderCall.localPotrace])
    | .error _ =>
      (intelligentLocalVectorization env,
       [ProviderCall.recraftRemoveBg, ProviderCall.recraftVectorize, ProviderCall.localPotrace])
  else
    (intelligentLocalVectorization env, [ProviderCall.localPotrace])

/-- C4 (amended). When the breaker is in cooldown at the start of a
vectorization call AND local vectorization is available, no metered Recraft
endpoint is attempted during the call and the caller degrades to local
vectorization. (Without local vectorization available the guard falls
through, so the unconditional form of the claim fails — see the
counterexample.) -/
theorem cooldown_guard_skips_recraft_amended (env : VecEnv)
    (hc : env.inCooldown = true) (hl : env.localAvailable = true) :
    vectorizeImage env = (intelligentLocalVectorization env, [ProviderCall.localPotrace]) ∧
    ProviderCall.recraftRemoveBg ∉ (vectorizeImage env).2 ∧
    ProviderCall.recraftVectorize ∉ (vectorizeImage env).2 := by
  have h : vectorizeImage env
      = (intelligentLocalVectorization env, [ProviderCall.localPotrace]) := by
    unfold vectorizeImage
    simp [hc, hl]
  refine ⟨h, ?_, ?_⟩ <;> rw [h] <;> simp

/-- Witness for C4 (amended): a cooled-down call with potrace available makes
no Recraft call and returns the local result. -/
theorem cooldown_guard_skips_recraft_amended_witness :
    vectorizeImage
        { inCooldown := true, localAvailable := true, hasApiKey := true, hasRaster := true,
          recraftVec := .ok (some "<svg/>"), localVec := .ok "<svg>local</svg>" }
      = (.ok { svgCode := "<svg>local</svg>", method := "local_intelligent" },
         [ProviderCall.localPotrace]) := by
  exact (cooldown_guard_skips_recraft_amended
    { inCooldown := true, localAvailable := true, hasApiKey := true, hasRaster := true,
      recraftVec := .ok (some "<svg/>"), localVec := .ok "<svg>local</svg>" }
    rfl rfl).1

/-- C4 counterexample: in cooldown but with local vectorization unavailable
and an API key configured, `vectorizeImage` falls through the guard and does
attempt the metered Recraft endpoints (both background removal and
vectorization) during the call, contradicting the claim that the endpoint is
never attempted while `isRecraftInCooldown()` is true. -/
theorem cooldown_guard_counterexample :
    (let env : VecEnv :=
      { inCooldown := true, localAvailable := false, hasApiKey := true, hasRaster := true,
        recraftVec := .ok (some "<svg/>"), localVec := .error { message := "no potrace" } };
     env.inCooldown = true ∧
     ProviderCall.recraftRemoveBg ∈ (vectorizeImage env).2 ∧
     ProviderCall.recraftVectorize ∈ (vectorizeImage env).2) := by
  refine ⟨rfl, ?_, ?_⟩ <;> simp [vectorizeImage]

/-- A cache entry `{ value, ts }` (`cacheService.js` line 73). -/
structure CacheEntry (V : Type) where
  value : V
  ts : Int
deriving Repr, DecidableEq

/-- The `LRUCache` of `cacheService.js`: `maxItems`, `maxAge` (ms) and the
insertion-ordered map, modelled as an association list whose FRONT is the
oldest (first-inserted) binding — exactly the iteration order of a JS `Map`. -/
structure LRUCache (K V : Type) where
  maxItems : Nat
  maxAge : Int
  map : List (K × CacheEntry V)
deriving Repr, DecidableEq

/-- `Map.get`: first binding of the key (keys are unique in a JS Map). -/
def assocFind {K V : Type} [DecidableEq K] : List (K × CacheEntry V) → K → Option (CacheEntry V)
  | [], _ => none
  | (k', e) :: rest, k => if k' = k then some e else assocFind rest k

/-- `Map.delete`: remove the binding of the key, preserving the order of the
other bindings. -/
def assocErase {K V : Type} [DecidableEq K] : List (K × CacheEntry V) → K → List (K × CacheEntry V)
  | [], _ => []
  | (k', e) :: rest, k => if k' = k then assocErase rest k else (k', e) :: assocErase rest k

/-- `_fresh(entry)` (`cacheService.js` lines 53-57): with `maxAge <= 0`
everything is fresh; otherwise the entry is fresh while
`now - entry.ts < maxAge`. -/
def lruFresh {K V : Type} (c : LRUCache K V) (e : CacheEntry V) (now : Int) : Bool :=
  if c.maxAge ≤ 0 then true else decide (now - e.ts < c.maxAge)

/-- `get(key)` (`cacheService.js` lines 59-70): a missing key is `null`; a
stale entry is deleted and `null`; a fresh hit is moved to the
most-recently-used end (delete + re-insert) and its value returned. -/
def lruGet {K V : Type} [DecidableEq K] (c : LRUCache K V) (k : K) (now : Int) :
    Option V × LRUCache K V :=
  match assocFind c.map k with
  | none => (none, c)
  | some e =>
    if lruFresh c e now then
      (some e.value, { c with map := assocErase c.map k ++ [(k, e)] })
    else
      (none, { c with map := assocErase c.map k })

/-- `_evictIfNeeded()` (`cacheService.js` lines 80-85): while `maxItems > 0`
and the map is over capacity, delete the oldest (front) binding. -/
def evictIfNeeded {K V : Type} (maxItems : Nat) : List (K × CacheEntry V) → List (K × CacheEntry V)
  | [] => []
  | x :: rest =>
    if maxItems > 0 && (x :: rest).length > maxItems then evictIfNeeded maxItems rest
    else x :: rest

/-- `set(key, value)` (`cacheService.js` lines 72-78): stamp the entry with
the current time, delete any existing binding, append at the
most-recently-used end, then evict as needed. -/
def lruSet {K V : Type} [DecidableEq K] (c : LRUCache K V) (k : K) (v : V) (now : Int) :
    LRUCache K V :=
  let e : CacheEntry V := { value := v, ts := now }
  { c with map := evictIfNeeded c.maxItems (assocErase c.map k ++ [(k, e)]) }

/-- Folding `set` over a list of key/value pairs, all at one time. -/
def lruSetAll {K V : Type} [DecidableEq K] (c : LRUCache K V) (kvs : List (K × V)) (now : Int) :
    LRUCache K V :=
  kvs.foldl (fun c kv => lruSet c kv.1 kv.2 now) c

/-- The map bindings that a list of `set` calls at time `now` creates. -/
def entriesOf {K V : Type} (kvs : List (K × V)) (now : Int) : List (K × CacheEntry V) :=
  kvs.map (fun kv => (kv.1, { value := kv.2, ts := now }))

/-- A key has no binding iff no pair of the map carries it. -/
theorem assocFind_eq_none_iff {K V : Type} [DecidableEq K]
    (m : List (K × CacheEntry V)) (k : K) :
    assocFind m k = none ↔ ∀ p ∈ m, p.1 ≠ k := by
  induction m with
  | nil => simp [assocFind]
  | cons p rest ih =>
    obtain ⟨k', e⟩ := p
    by_cases h : k' = k
    · subst h
      simp [assocFind]
    · simp [assocFind, h, ih]

/-- Erasing a key removes every binding of it. -/
theorem assocErase_forall {K V : Type} [DecidableEq K]
    (m : List (K × CacheEntry V)) (k : K) :
    ∀ p ∈ assocErase m k, p ∈ m ∧ p.1 ≠ k := by
  induction m with
  | nil => simp [assocErase]
  | cons q rest ih =>
    obtain ⟨k', e⟩ := q
    by_cases h : k' = k
    · subst h
      simp only [assocErase, if_pos rfl]
      intro p hp
      exact ⟨List.mem_cons_of_mem _ (ih p hp).1, (ih p hp).2⟩
    · simp only [assocErase, if_neg h]
      intro p hp
      rcases List.mem_cons.mp hp with h1 | h1
      · subst h1
        exact ⟨List.mem_cons_self _ _, h⟩
      · exact ⟨List.mem_cons_of_mem _ (ih p h1).1, (ih p h1).2⟩

/-- Erasing an absent key is the identity. -/
theorem assocErase_of_not_found {K V : Type} [DecidableEq K]
    (m : List (K × CacheEntry V)) (k : K) (h : assocFind m k = none) :
    assocErase m k = m := by
  induction m with
  | nil => rfl
  | cons q rest ih =>
    obtain ⟨k', e⟩ := q
    by_cases hk : k' = k
    · subst hk
      simp [assocFind] at h
    · simp only [assocFind, if_neg hk] at h
      simp only [assocErase, if_neg hk, ih h]

/-- Finding a key bound only at the very end. -/
theorem assocFind_append_last {K V : Type} [DecidableEq K]
    (m : List (K × CacheEntry V)) (k : K) (e : CacheEntry V)
    (h : ∀ p ∈ m, p.1 ≠ k) :
    assocFind (m ++ [(k, e)]) k = some e := by
  induction m with
  | nil => simp [assocFind]
  | cons q rest ih =>
    obtain ⟨k', e'⟩ := q
    have hk : k' ≠ k := h (k', e') (List.mem_cons_self _ _)
    simp only [List.cons_append, assocFind, if_neg hk]
    exact ih (fun p hp => h p (List.mem_cons_of_mem _ hp))

/-- Eviction drops only oldest entries: on a map ending in a fresh binding it
returns some tail of the older part with the fresh binding still at the end. -/
theorem evictIfNeeded_append_last {K V : Type} (mi : Nat)
    (m : List (K × CacheEntry V)) (x : K × CacheEntry V) :
    ∃ m₁, evictIfNeeded mi (m ++ [x]) = m₁ ++ [x] ∧ ∀ p ∈ m₁, p ∈ m := by
  induction m with
  | nil =>
    refine ⟨[], ?_, by simp⟩
    simp only [List.nil_append, evictIfNeeded]
    have : ¬ (mi > 0 && ([x] : List (K × CacheEntry V)).length > mi) = true := by
      simp only [List.length_singleton, Bool.and_eq_true, decide_eq_true_eq]
      rintro ⟨h1, h2⟩
      omega
    simp only [List.length_singleton]
    split
    · rename_i hcond
      simp only [List.length_singleton] at this
      exact absurd hcond this
    · rfl
  | cons q rest ih =>
    simp only [List.cons_append, evictIfNeeded]
    split
    · obtain ⟨m₁, hm₁, hsub⟩ := ih
      exact ⟨m₁, hm₁, fun p hp => List.mem_cons_of_mem _ (hsub p hp)⟩
    · exact ⟨q :: rest, rfl, fun p hp => hp⟩

/-- Eviction is the identity on a map within capacity. -/
theorem evictIfNeeded_of_le {K V : Type} (mi : Nat) (m : List (K × CacheEntry V))
    (h : m.length ≤ mi) :
    evictIfNeeded mi m = m := by
  cases m with
  | nil => rfl
  | cons x rest =>
    rw [evictIfNeeded]
    have : ¬ (mi > 0 && (x :: rest).length > mi) = true := by
      simp only [Bool.and_eq_true, decide_eq_true_eq]
      rintro ⟨_, h2⟩
      omega
    split
    · rename_i hcond
      exact absurd hcond this
    · rfl

/-- With a positive capacity, eviction keeps exactly the newest
`maxItems` entries. -/
theorem evictIfNeeded_eq_drop {K V : Type} (mi : Nat) (m : List (K × CacheEntry V))
    (h : 0 < mi) :
    evictIfNeeded mi m = m.drop (m.length - mi) := by
  induction m with
  | nil => simp [evictIfNeeded]
  | cons x rest ih =>
    rw [evictIfNeeded]
    by_cases hlen : (x :: rest).length > mi
    · have hcond : (mi > 0 && (x :: rest).length > mi) = true := by
        simp only [Bool.and_eq_true, decide_eq_true_eq]
        exact ⟨h, hlen⟩
      rw [if_pos hcond, ih]
      have : (x :: rest).length - mi = (rest.length - mi) + 1 := by
        simp only [List.length_cons] at *
        omega
      rw [this, List.drop_succ_cons]
    · have hcond : ¬ (mi > 0 && (x :: rest).length > mi) = true := by
        simp only [Bool.and_eq_true, decide_eq_true_eq]
        rintro ⟨_, h2⟩
        exact hlen h2
      rw [if_neg hcond]
      have : (x :: rest).length - mi = 0 := by omega
      rw [this, List.drop_zero]

/-- `set` keeps the configured capacity and TTL. -/
theorem lruSet_config {K V : Type} [DecidableEq K] (c : LRUCache K V) (k : K) (v : V) (t : Int) :
    (lruSet c k v t).maxItems = c.maxItems ∧ (lruSet c k v t).maxAge = c.maxAge :=
  ⟨rfl, rfl⟩

/-- Repeated `set` keeps the configured capacity and TTL. -/
theorem lruSetAll_config {K V : Type} [DecidableEq K] (kvs : List (K × V)) :
    ∀ (c : LRUCache K V) (t : Int),
      (lruSetAll c kvs t).maxItems = c.maxItems ∧ (lruSetAll c kvs t).maxAge = c.maxAge := by
  induction kvs with
  | nil => intro c t; exact ⟨rfl, rfl⟩
  | cons kv rest ih =>
    intro c t
    have h := ih (lruSet c kv.1 kv.2 t) t
    simpa [lruSetAll, List.foldl_cons] using h

/-- Inserting distinct, previously-absent keys into a cache within capacity:
the resulting map is the old map followed by the new bindings, with the
oldest entries dropped exactly when the final size would exceed `maxItems`
(and with the stated bounds, at most one entry is dropped). -/
theorem lruSetAll_map_eq {K V : Type} [DecidableEq K] (kvs : List (K × V)) :
    ∀ (c : LRUCache K V) (t : Int),
      0 < c.maxItems →
      c.map.length ≤ c.maxItems →
      c.map.length + kvs.length ≤ c.maxItems + 1 →
      (kvs.map Prod.fst).Nodup →
      (∀ kv ∈ kvs, assocFind c.map kv.1 = none) →
      (lruSetAll c kvs t).map
        = (c.map ++ entriesOf kvs t).drop (c.map.length + kvs.length - c.maxItems) := by
  induction kvs with
  | nil =>
    intro c t hpos hle _ _ _
    simp [lruSetAll, entriesOf, Nat.sub_eq_zero_of_le hle]
  | cons kv rest ih =>
    intro c t hpos hle htot hnodup hfresh
    have hkv : assocFind c.map kv.1 = none := hfresh kv (List.mem_cons_self _ _)
    have herase : assocErase c.map kv.1 = c.map := assocErase_of_not_found _ _ hkv
    have hstep : lruSetAll c (kv :: rest) t = lruSetAll (lruSet c kv.1 kv.2 t) rest t := by
      simp [lruSetAll, List.foldl_cons]
    have hmapset : (lruSet c kv.1 kv.2 t).map
        = evictIfNeeded c.maxItems (c.map ++ [(kv.1, { value := kv.2, ts := t })]) := by
      simp [lruSet, herase]
    have hnodup' : (rest.map Prod.fst).Nodup := (List.nodup_cons.mp hnodup).2
    have hkvnot : kv.1 ∉ rest.map Prod.fst := (List.nodup_cons.mp hnodup).1
    rcases Nat.lt_or_ge c.map.length c.maxItems with hlt | hge
    · -- within capacity after this insert: no eviction yet
      have hlen : (c.map ++ [(kv.1, ({ value := kv.2, ts := t } : CacheEntry V))]).length ≤ c.maxItems := by
        simp only [List.length_append, List.length_singleton]
        omega
      have hmap' : (lruSet c kv.1 kv.2 t).map
          = c.map ++ [(kv.1, { value := kv.2, ts := t })] := by
        rw [hmapset, evictIfNeeded_of_le _ _ hlen]
      have hfresh' : ∀ kv' ∈ rest, assocFind (lruSet c kv.1 kv.2 t).map kv'.1 = none := by
        intro kv' hkv'
        rw [hmap', assocFind_eq_none_iff]
        intro p hp
        rcases List.mem_append.mp hp with h1 | h1
        · exact ((assocFind_eq_none_iff c.map kv'.1).mp
            (hfresh kv' (List.mem_cons_of_mem _ hkv'))) p h1
        · have hpe : p = (kv.1, { value := kv.2, ts := t }) := by simpa using h1
          subst hpe
          intro hcontra
          apply hkvnot
          have hkk : kv.1 = kv'.1 := hcontra
          rw [hkk]
          exact List.mem_map_of_mem Prod.fst hkv'
      have hih := ih (lruSet c kv.1 kv.2 t) t
        (by rw [(lruSet_config c kv.1 kv.2 t).1]; exact hpos)
        (by rw [(lruSet_config c kv.1 kv.2 t).1, hmap']; simpa using hlen)
        (by
          rw [(lruSet_config c kv.1 kv.2 t).1, hmap']
          simp only [List.length_append, List.length_singleton]
          simp only [List.length_cons] at htot
          omega)
        hnodup' hfresh'
      have hassoc : (c.map ++ [(kv.1, ({ value := kv.2, ts := t } : CacheEntry V))]) ++ entriesOf rest t
          = c.map ++ entriesOf (kv :: rest) t := by
        simp [entriesOf]
      have hidx : (c.map ++ [(kv.1, ({ value := kv.2, ts := t } : CacheEntry V))]).length + rest.length - c.maxItems
          = c.map.length + (kv :: rest).length - c.maxItems := by
        have h1 : (c.map ++ [(kv.1, ({ value := kv.2, ts := t } : CacheEntry V))]).length
            = c.map.length + 1 := by simp
        have h2 : (kv :: rest).length = rest.length + 1 := by simp
        rw [h1, h2]
        omega
      rw [hstep, hih, (lruSet_config c kv.1 kv.2 t).1, hmap', hassoc, hidx]
    · -- the cache is exactly full: this insert evicts the oldest entry,
      -- and the stated bounds force it to be the last insert
      have hfull : c.map.length = c.maxItems := by omega
      have hrest : rest = [] := by
        simp only [List.length_cons] at htot
        have : rest.length = 0 := by omega
        exact List.eq_nil_of_length_eq_zero this
      subst hrest
      have hlen : (c.map ++ [(kv.1, ({ value := kv.2, ts := t } : CacheEntry V))]).length = c.maxItems + 1 := by
        simp only [List.length_append, List.length_singleton]
        omega
      rw [hstep]
      simp only [lruSetAll, List.foldl_nil]
      rw [hmapset, evictIfNeeded_eq_drop _ _ hpos, hlen]
      have h1 : c.maxItems + 1 - c.maxItems = 1 := by omega
      have h2 : c.map.length + ([kv] : List (K × V)).length - c.maxItems = 1 := by
        simp only [List.length_singleton]
        omega
      rw [h1, h2]
      rfl

/-- Looking up a key in the entries created by distinct `set` calls. -/
theorem assocFind_entriesOf {K V : Type} [DecidableEq K] (kvs : List (K × V)) (t : Int) :
    ∀ (k : K) (v : V), (kvs.map Prod.fst).Nodup → (k, v) ∈ kvs →
      assocFind (entriesOf kvs t) k = some { value := v, ts := t } := by
  induction kvs with
  | nil => intro k v _ hmem; simp at hmem
  | cons kv rest ih =>
    obtain ⟨k', v'⟩ := kv
    intro k v hnodup hmem
    have hnodup' : (k' :: rest.map Prod.fst).Nodup := by simpa using hnodup
    obtain ⟨hnotin, hnd⟩ := List.nodup_cons.mp hnodup'
    rcases List.mem_cons.mp hmem with h | h
    · obtain ⟨h1, h2⟩ := Prod.mk.injEq .. ▸ h.symm
      subst h1
      subst h2
      simp [entriesOf, assocFind]
    · have hk : k' ≠ k := by
        intro hcontra
        subst hcontra
        exact hnotin (List.mem_map_of_mem Prod.fst h)
      simp only [entriesOf, List.map_cons, assocFind, if_neg hk]
      exact ih k v hnd h

/-- C5. TTL+LRU cache semantics: `get(key)` right after `set(key, value)`
returns exactly `value` while the entry is within `maxAge`, and reports
absence once the entry's age reaches `maxAge`; and inserting `maxItems + 1`
distinct fresh keys into an empty cache evicts exactly the
least-recently-touched (first-inserted) key — it alone reads as absent, and
every other inserted key is still retrievable with its exact value. -/
theorem cache_ttl_lru_semantics :
    (∀ (K V : Type) [DecidableEq K] (c : LRUCache K V) (k : K) (v : V) (t t' : Int),
       (0 < c.maxAge → t' - t < c.maxAge) →
       (lruGet (lruSet c k v t) k t').1 = some v) ∧
    (∀ (K V : Type) [DecidableEq K] (c : LRUCache K V) (k : K) (v : V) (t t' : Int),
       0 < c.maxAge → c.maxAge ≤ t' - t →
       (lruGet (lruSet c k v t) k t').1 = none) ∧
    (∀ (K V : Type) [DecidableEq K] (n : Nat) (a : Int) (k0 : K) (v0 : V)
       (rest : List (K × V)) (t t' : Int),
       0 < n → ((k0, v0) :: rest).length = n + 1 →
       (((k0, v0) :: rest).map Prod.fst).Nodup →
       (0 < a → t' - t < a) →
       (lruGet (lruSetAll ⟨n, a, []⟩ ((k0, v0) :: rest) t) k0 t').1 = none ∧
       ∀ kv ∈ rest,
         (lruGet (lruSetAll ⟨n, a, []⟩ ((k0, v0) :: rest) t) kv.1 t').1 = some kv.2) := by
  have hfind_set : ∀ (K V : Type) [DecidableEq K] (c : LRUCache K V) (k : K) (v : V) (t : Int),
      assocFind (lruSet c k v t).map k = some { value := v, ts := t } := by
    intro K V _ c k v t
    obtain ⟨m₁, hm, hsub⟩ := evictIfNeeded_append_last c.maxItems (assocErase c.map k)
      ((k, { value := v, ts := t }) : K × CacheEntry V)
    have hmap : (lruSet c k v t).map = m₁ ++ [(k, { value := v, ts := t })] := hm
    rw [hmap]
    exact assocFind_append_last m₁ k _
      (fun p hp => (assocErase_forall c.map k p (hsub p hp)).2)
  refine ⟨?_, ?_, ?_⟩
  · intro K V _ c k v t t' hfr
    have hfind := hfind_set K V c k v t
    have hfresh : lruFresh (lruSet c k v t) { value := v, ts := t } t' = true := by
      simp only [lruFresh, (lruSet_config c k v t).2]
      split
      · rfl
      · rename_i hpos
        simp only [decide_eq_true_eq]
        exact hfr (by omega)
    simp only [lruGet, hfind, hfresh, if_true]
  · intro K V _ c k v t t' hpos hstale
    have hfind := hfind_set K V c k v t
    have hfresh : lruFresh (lruSet c k v t) { value := v, ts := t } t' = false := by
      simp only [lruFresh, (lruSet_config c k v t).2]
      split
      · rename_i hle
        omega
      · simp only [decide_eq_false_iff_not, not_lt]
        exact hstale
    simp [lruGet, hfind, hfresh]
  · intro K V _ n a k0 v0 rest t t' hn hlen hnodup hfr
    have hmapeq := lruSetAll_map_eq ((k0, v0) :: rest) (⟨n, a, []⟩ : LRUCache K V) t
      hn (by simp) (by simp only [List.length_nil, Nat.zero_add]; omega)
      hnodup (by intro kv _; rfl)
    have hdrop : (lruSetAll (⟨n, a, []⟩ : LRUCache K V) ((k0, v0) :: rest) t).map
        = entriesOf rest t := by
      rw [hmapeq]
      have h1 : ([] : List (K × CacheEntry V)).length + ((k0, v0) :: rest).length - n = 1 := by
        simp only [List.length_nil, List.length_cons] at *
        omega
      rw [h1]
      simp [entriesOf]
    have hage : (lruSetAll (⟨n, a, []⟩ : LRUCache K V) ((k0, v0) :: rest) t).maxAge = a :=
      (lruSetAll_config ((k0, v0) :: rest) ⟨n, a, []⟩ t).2
    have hnodup' : (k0 :: rest.map Prod.fst).Nodup := by simpa using hnodup
    obtain ⟨hk0notin, hndrest⟩ := List.nodup_cons.mp hnodup'
    constructor
    · have hfind : assocFind (lruSetAll (⟨n, a, []⟩ : LRUCache K V) ((k0, v0) :: rest) t).map k0
          = none := by
        rw [hdrop, assocFind_eq_none_iff]
        intro p hp
        simp only [entriesOf, List.mem_map] at hp
        obtain ⟨kv, hkv, rfl⟩ := hp
        intro hcontra
        exact hk0notin (hcontra ▸ List.mem_map_of_mem Prod.fst hkv)
      simp only [lruGet, hfind]
    · intro kv hkv
      have hfind : assocFind (lruSetAll (⟨n, a, []⟩ : LRUCache K V) ((k0, v0) :: rest) t).map kv.1
          = some { value := kv.2, ts := t } := by
        rw [hdrop]
        exact assocFind_entriesOf rest t kv.1 kv.2 hndrest (by simpa using hkv)
      have hfresh : lruFresh (lruSetAll (⟨n, a, []⟩ : LRUCache K V) ((k0, v0) :: rest) t)
          { value := kv.2, ts := t } t' = true := by
        simp only [lruFresh, hage]
        split
        · rfl
        · rename_i hpos
          simp only [decide_eq_true_eq]
          exact hfr (by omega)
      simp only [lruGet, hfind, hfresh, if_true]

/-- Witness for C5: a fresh get returns the set value, a stale get is absent,
and after 3 inserts into a 2-item cache the first key alone is evicted. -/
theorem cache_ttl_lru_semantics_witness :
    (lruGet (lruSet (⟨2, 100, []⟩ : LRUCache Nat Nat) 7 42 0) 7 5).1 = some 42 ∧
    (lruGet (lruSet (⟨2, 100, []⟩ : LRUCache Nat Nat) 7 42 0) 7 100).1 = none ∧
    (lruGet (lruSetAll (⟨2, 100, []⟩ : LRUCache Nat Nat) [(1, 10), (2, 20), (3, 30)] 0) 1 5).1
      = none ∧
    (lruGet (lruSetAll (⟨2, 100, []⟩ : LRUCache Nat Nat) [(1, 10), (2, 20), (3, 30)] 0) 2 5).1
      = some 20 := by
  refine ⟨?_, ?_, ?_, ?_⟩
  · exact cache_ttl_lru_semantics.1 Nat Nat ⟨2, 100, []⟩ 7 42 0 5 (by intro _; decide)
  · exact cache_ttl_lru_semantics.2.1 Nat Nat ⟨2, 100, []⟩ 7 42 0 100 (by decide) (by decide)
  · exact (cache_ttl_lru_semantics.2.2 Nat Nat 2 100 1 10 [(2, 20), (3, 30)] 0 5
      (by norm_num) (by simp) (by decide) (by intro _; decide)).1
  · exact (cache_ttl_lru_semantics.2.2 Nat Nat 2 100 1 10 [(2, 20), (3, 30)] 0 5
      (by norm_num) (by simp) (by decide) (by intro _; decide)).2 (2, 20) (by simp)

/-- The limiter's configuration (`AdvancedRateLimiter` constructor):
`windowMs` and `maxRequests`. -/
structure RLConfig where
  windowMs : Int
  maxRequests : Int
deriving Repr, DecidableEq

/-- The `{ count, oldestScore, now }` snapshot produced by `_hitRedis` /
`_hitMemory` (`windowMs` is configuration and omitted). -/
structure RLSnapshot where
  count : Nat
  oldestScore : Int
  now : Int
deriving Repr, DecidableEq

/-- `_hitMemory(key)` (`server.js` rate-limiter lines 326-351): prune the
leading timestamps at or before `now - windowMs` (the JS loop only removes a
leading run), push `now`, and report the count and the oldest remaining
timestamp (`arr[0] || now`: the JS `||` makes a zero timestamp fall back to
`now`). Returns the updated per-key array and the snapshot. -/
def hitMemory (cfg : RLConfig) (arr : List Int) (now : Int) : List Int × RLSnapshot :=
  let windowStart := now - cfg.windowMs
  let pruned := arr.dropWhile (fun t => decide (t ≤ windowStart))
  let arr' := pruned ++ [now]
  let oldest :=
    match arr'.head? with
    | some t => if t ≠ 0 then t else now
    | none => now
  (arr', { count := arr'.length, oldestScore := oldest, now := now })

/-- `_hitRedis(key)` (`server.js` rate-limiter lines 291-322) modelled on the
sorted set of scores: `ZREMRANGEBYSCORE -inf windowStart` removes every score
at or below `now - windowMs`, `ZADD` inserts `now`, `ZCARD` counts, and
`ZRANGE 0 0 WITHSCORES` reads the minimum score (falling back to `now` on an
empty set, which cannot occur right after the add). -/
def hitRedisModel (cfg : RLConfig) (zset : List Int) (now : Int) : List Int × RLSnapshot :=
  let windowStart := now - cfg.windowMs
  let pruned := zset.filter (fun s => decide (windowStart < s))
  let zset' := pruned ++ [now]
  let oldest := zset'.foldl min now
  (zset', { count := zset'.length, oldestScore := oldest, now := now })

/-- `_calcResetSec(now, oldest)` (`server.js` rate-limiter lines 283-287):
`ceil(max(0, oldest + windowMs - now) / 1000)`. -/
def calcResetSec (cfg : RLConfig) (now oldest : Int) : Int :=
  (max 0 (oldest + cfg.windowMs - now) + 999) / 1000

/-- The `RateLimit-Limit` / `-Remaining` / `-Reset` headers set by
`_headers` on every non-bypassed response. -/
structure RLHeaders where
  limit : Int
  remaining : Int
  resetSec : Int
deriving Repr, DecidableEq

/-- Outcome of the middleware on one request: pass the request on (with the
rate headers set, or without them when limiting was bypassed or an internal
error was swallowed), or reject with 429 plus a `Retry-After`. -/
inductive MWResult where
  | next (headers : Option RLHeaders)
  | deny429 (headers : RLHeaders) (retryAfter : Int)
deriving Repr, DecidableEq

/-- State of the Redis client as the middleware sees it: ready (in which case
`_hitRedis` either yields an updated sorted set and snapshot, or throws),
still connecting, or not configured. -/
inductive RedisBackend where
  | ready (attempt : Except JsErr (List Int × RLSnapshot))
  | connecting
  | noRedis

/-- `AdvancedRateLimiter.middleware` (`server.js` rate-limiter lines
358-409). `allowRes` is the outcome of `this.allow(req)` and `keyRes` of
`this.keyResolver(req)`; a thrown error in either lands in the outer catch,
which logs and calls `next()` (never fail closed). A ready Redis backend is
used first; if its pipeline throws, the middleware degrades to the in-memory
window; a connecting or absent client uses memory directly. Headers are set
on every counted response; the request is denied iff `count > maxRequests`,
with `Retry-After` equal to `resetSec`. Returns the result and the updated
in-memory window. -/
def middleware (cfg : RLConfig) (allowRes : Except JsErr Bool)
    (keyRes : Except JsErr String) (backend : RedisBackend)
    (mem : List Int) (now : Int) : MWResult × List Int :=
  match allowRes with
  | .error _ => (.next none, mem)
  | .ok true => (.next none, mem)
  | .ok false =>
    match keyRes with
    | .error _ => (.next none, mem)
    | .ok _ =>
      let hit :
          RLSnapshot × List Int :=
        match backend with
        | .ready (.ok (_, s)) => (s, mem)
        | .ready (.error _) =>
          let r := hitMemory cfg mem now
          (r.2, r.1)
        | .connecting =>
          let r := hitMemory cfg mem now
          (r.2, r.1)
        | .noRedis =>
          let r := hitMemory cfg mem now
          (r.2, r.1)
      let snapshot := hit.1
      let resetSec := calcResetSec cfg snapshot.now snapshot.oldestScore
      let remaining := max 0 (cfg.maxRequests - (snapshot.count : Int))
      let h : RLHeaders :=
        { limit := cfg.maxRequests, remaining := remaining, resetSec := resetSec }
      if (snapshot.count : Int) > cfg.maxRequests then
        (.deny429 h resetSec, hit.2)
      else
        (.next (some h), hit.2)

/-- Folding the memory hit over a list of arrival times. -/
def hitAll (cfg : RLConfig) (mem : List Int) : List Int → List Int
  | [] => mem
  | t :: ts => hitAll cfg (hitMemory cfg mem t).1 ts

/-- `dropWhile` keeps a list whose head fails the predicate (or is absent);
in particular a list none of whose elements satisfies it. -/
theorem dropWhile_eq_self_of_forall {α : Type} (p : α → Bool) (l : List α)
    (h : ∀ x ∈ l, p x = false) : l.dropWhile p = l := by
  cases l with
  | nil => rfl
  | cons a l =>
    rw [List.dropWhile_cons, if_neg]
    rw [h a (List.mem_cons_self _ _)]
    simp

/-- `dropWhile` empties a list all of whose elements satisfy the predicate. -/
theorem dropWhile_eq_nil_of_forall {α : Type} (p : α → Bool) (l : List α)
    (h : ∀ x ∈ l, p x = true) : l.dropWhile p = [] := by
  induction l with
  | nil => rfl
  | cons a l ih =>
    rw [List.dropWhile_cons, if_pos (h a (List.mem_cons_self _ _))]
    exact ih (fun x hx => h x (List.mem_cons_of_mem _ hx))

/-- Hits all falling inside one another's window just accumulate: no pruning
happens and the per-key array ends as the old entries followed by the new
arrival times in order. -/
theorem hitAll_eq_append (cfg : RLConfig) (ts : List Int) :
    ∀ (mem : List Int),
      (∀ x ∈ mem, ∀ u ∈ ts, ¬ x ≤ u - cfg.windowMs) →
      (∀ x ∈ ts, ∀ u ∈ ts, ¬ x ≤ u - cfg.windowMs) →
      hitAll cfg mem ts = mem ++ ts := by
  induction ts with
  | nil => intro mem _ _; simp [hitAll]
  | cons t ts ih =>
    intro mem hmem hts
    have hstep : (hitMemory cfg mem t).1 = mem ++ [t] := by
      simp only [hitMemory]
      rw [dropWhile_eq_self_of_forall]
      intro x hx
      simp only [decide_eq_false_iff_not]
      exact hmem x hx t (List.mem_cons_self _ _)
    rw [hitAll, hstep, ih (mem ++ [t])]
    · simp
    · intro x hx u hu
      rcases List.mem_append.mp hx with h1 | h1
      · exact hmem x h1 u (List.mem_cons_of_mem _ hu)
      · have : x = t := by simpa using h1
        subst this
        exact hts x (List.mem_cons_self _ _) u (List.mem_cons_of_mem _ hu)
    · intro x hx u hu
      exact hts x (List.mem_cons_of_mem _ hx) u (List.mem_cons_of_mem _ hu)

/-- A hit whose previous timestamps are all still inside the window prunes
nothing: the array becomes `arr ++ [now]` and the snapshot reads off it. -/
theorem hitMemory_no_prune (cfg : RLConfig) (arr : List Int) (now : Int)
    (h : ∀ x ∈ arr, ¬ x ≤ now - cfg.windowMs) :
    hitMemory cfg arr now
      = (arr ++ [now],
         { count := (arr ++ [now]).length
           oldestScore :=
             match (arr ++ [now]).head? with
             | some t => if t ≠ 0 then t else now
             | none => now
           now := now }) := by
  simp only [hitMemory]
  rw [dropWhile_eq_self_of_forall _ _ (by
    intro x hx
    simp only [decide_eq_false_iff_not]
    exact h x hx)]

/-- A hit after the whole window has lapsed prunes everything: the array
becomes `[now]` and the count is 1. -/
theorem hitMemory_all_pruned (cfg : RLConfig) (arr : List Int) (now : Int)
    (h : ∀ x ∈ arr, x ≤ now - cfg.windowMs) :
    hitMemory cfg arr now
      = ([now], { count := 1, oldestScore := if now ≠ 0 then now else now, now := now }) := by
  simp only [hitMemory]
  rw [dropWhile_eq_nil_of_forall _ _ (by
    intro x hx
    simp only [decide_eq_true_eq]
    exact h x hx)]
  rfl

/-- On a non-bypassed request with no thrown resolver, the middleware always
produces rate headers carrying the configured limit, and a denial always
carries a `Retry-After` equal to the `resetSec` header. -/
theorem middleware_headers_always (cfg : RLConfig) (k : String) (backend : RedisBackend)
    (mem : List Int) (now : Int) :
    ∃ h : RLHeaders, h.limit = cfg.maxRequests ∧
      ((middleware cfg (.ok false) (.ok k) backend mem now).1 = .next (some h) ∨
       (middleware cfg (.ok false) (.ok k) backend mem now).1 = .deny429 h h.resetSec) := by
  cases backend with
  | ready attempt =>
    cases attempt with
    | ok p =>
      by_cases hc : ((p.2.count : Int) > cfg.maxRequests)
      · refine ⟨{ limit := cfg.maxRequests
                  remaining := max 0 (cfg.maxRequests - (p.2.count : Int))
                  resetSec := calcResetSec cfg p.2.now p.2.oldestScore }, rfl, Or.inr ?_⟩
        simp only [middleware, hc, if_true]
      · refine ⟨{ limit := cfg.maxRequests
                  remaining := max 0 (cfg.maxRequests - (p.2.count : Int))
                  resetSec := calcResetSec cfg p.2.now p.2.oldestScore }, rfl, Or.inl ?_⟩
        simp only [middleware, hc, if_false]
    | error e =>
      by_cases hc : (((hitMemory cfg mem now).2.count : Int) > cfg.maxRequests)
      · refine ⟨{ limit := cfg.maxRequests
                  remaining := max 0 (cfg.maxRequests - ((hitMemory cfg mem now).2.count : Int))
                  resetSec := calcResetSec cfg (hitMemory cfg mem now).2.now
                    (hitMemory cfg mem now).2.oldestScore }, rfl, Or.inr ?_⟩
        simp only [middleware, hc, if_true]
      · refine ⟨{ limit := cfg.maxRequests
                  remaining := max 0 (cfg.maxRequests - ((hitMemory cfg mem now).2.count : Int))
                  resetSec := calcResetSec cfg (hitMemory cfg mem now).2.now
                    (hitMemory cfg mem now).2.oldestScore }, rfl, Or.inl ?_⟩
        simp only [middleware, hc, if_false]
  | connecting =>
    by_cases hc : (((hitMemory cfg mem now).2.count : Int) > cfg.maxRequests)
    · refine ⟨{ limit := cfg.maxRequests
                remaining := max 0 (cfg.maxRequests - ((hitMemory cfg mem now).2.count : Int))
                resetSec := calcResetSec cfg (hitMemory cfg mem now).2.now
                  (hitMemory cfg mem now).2.oldestScore }, rfl, Or.inr ?_⟩
      simp only [middleware, hc, if_true]
    · refine ⟨{ limit := cfg.maxRequests
                remaining := max 0 (cfg.maxRequests - ((hitMemory cfg mem now).2.count : Int))
                resetSec := calcResetSec cfg (hitMemory cfg mem now).2.now
                  (hitMemory cfg mem now).2.oldestScore }, rfl, Or.inl ?_⟩
      simp only [middleware, hc, if_false]
  | noRedis =>
    by_cases hc : (((hitMemory cfg mem now).2.count : Int) > cfg.maxRequests)
    · refine ⟨{ limit := cfg.maxRequests
                remaining := max 0 (cfg.maxRequests - ((hitMemory cfg mem now).2.count : Int))
                resetSec := calcResetSec cfg (hitMemory cfg mem now).2.now
                  (hitMemory cfg mem now).2.oldestScore }, rfl, Or.inr ?_⟩
      simp only [middleware, hc, if_true]
    · refine ⟨{ limit := cfg.maxRequests
                remaining := max 0 (cfg.maxRequests - ((hitMemory cfg mem now).2.count : Int))
                resetSec := calcResetSec cfg (hitMemory cfg mem now).2.now
                  (hitMemory cfg mem now).2.oldestScore }, rfl, Or.inl ?_⟩
      simp only [middleware, hc, if_false]

/-- C6. Sliding-window rate limiter: while the window holds fewer than
`maxRequests` accepted hits (all inside one another's trailing window), the
next request is admitted with the rate headers set; once `maxRequests` hits
fill the window, one more request in the window is denied with
`resetSeconds > 0` and a `Retry-After` equal to `resetSeconds`; after the
clock passes the window (every recorded timestamp at least `windowMs` old)
the same key is admitted again; and every counted response — admitted or
denied — carries `limit`, `remaining` and `resetSeconds`. -/
theorem rateLimiter_sliding_window :
    (∀ (cfg : RLConfig) (k : String) (pre : List Int) (t : Int) (post : List Int),
       (∀ x ∈ pre ++ t :: post, ∀ u ∈ pre ++ t :: post, ¬ x ≤ u - cfg.windowMs) →
       ((pre ++ t :: post).length : Int) ≤ cfg.maxRequests →
       ∃ h, (middleware cfg (.ok false) (.ok k) .noRedis (hitAll cfg [] pre) t).1
              = .next (some h)) ∧
    (∀ (cfg : RLConfig) (k : String) (t0 : Int) (ts : List Int) (tStar : Int),
       (∀ x ∈ t0 :: ts, ∀ u ∈ (t0 :: ts) ++ [tStar], ¬ x ≤ u - cfg.windowMs) →
       (((t0 :: ts).length : Int)) = cfg.maxRequests →
       t0 ≠ 0 →
       ∃ h, (middleware cfg (.ok false) (.ok k) .noRedis (hitAll cfg [] (t0 :: ts)) tStar).1
              = .deny429 h h.resetSec ∧ 0 < h.resetSec) ∧
    (∀ (cfg : RLConfig) (k : String) (mem : List Int) (now : Int),
       (∀ x ∈ mem, x ≤ now - cfg.windowMs) →
       1 ≤ cfg.maxRequests →
       ∃ h, (middleware cfg (.ok false) (.ok k) .noRedis mem now).1 = .next (some h)) ∧
    (∀ (cfg : RLConfig) (k : String) (backend : RedisBackend) (mem : List Int) (now : Int),
       ∃ h : RLHeaders, h.limit = cfg.maxRequests ∧
         ((middleware cfg (.ok false) (.ok k) backend mem now).1 = .next (some h) ∨
          (middleware cfg (.ok false) (.ok k) backend mem now).1 = .deny429 h h.resetSec)) := by
  refine ⟨?_, ?_, ?_, ?_⟩
  · intro cfg k pre t post hwin hlen
    have hpre : hitAll cfg [] pre = pre := by
      rw [hitAll_eq_append cfg pre [] (by simp)]
      · simp
      · intro x hx u hu
        exact hwin x (List.mem_append_left _ hx) u (List.mem_append_left _ hu)
    have hstep := hitMemory_no_prune cfg pre t (by
      intro x hx
      exact hwin x (List.mem_append_left _ hx)
        t (List.mem_append_right _ (List.mem_cons_self _ _)))
    have hcount : ¬ (((hitMemory cfg pre t).2.count : Int) > cfg.maxRequests) := by
      rw [hstep]
      simp only [List.length_append, List.length_singleton, not_lt]
      have h1 : (pre.length : Int) + 1 ≤ ((pre ++ t :: post).length : Int) := by
        simp only [List.length_append, List.length_cons]
        push_cast
        omega
      push_cast at h1 hlen ⊢
      omega
    refine ⟨{ limit := cfg.maxRequests
              remaining := max 0 (cfg.maxRequests - ((hitMemory cfg pre t).2.count : Int))
              resetSec := calcResetSec cfg (hitMemory cfg pre t).2.now
                (hitMemory cfg pre t).2.oldestScore }, ?_⟩
    rw [hpre]
    simp only [middleware]
    rw [if_neg hcount]
  · intro cfg k t0 ts tStar hwin hlen h0
    have hfill : hitAll cfg [] (t0 :: ts) = t0 :: ts := by
      rw [hitAll_eq_append cfg (t0 :: ts) [] (by simp)]
      · simp
      · intro x hx u hu
        exact hwin x hx u (List.mem_append_left _ hu)
    have hstep := hitMemory_no_prune cfg (t0 :: ts) tStar (by
      intro x hx
      exact hwin x hx tStar (List.mem_append_right _ (List.mem_singleton_self _)))
    have hsnap : (hitMemory cfg (t0 :: ts) tStar).2
        = { count := ((t0 :: ts) ++ [tStar]).length, oldestScore := t0, now := tStar } := by
      rw [hstep]
      simp [h0]
    have hcount : (((hitMemory cfg (t0 :: ts) tStar).2.count : Int)) > cfg.maxRequests := by
      rw [hsnap]
      simp only [List.length_append, List.length_singleton]
      push_cast
      omega
    have hreset : 0 < calcResetSec cfg tStar t0 := by
      have h1 : ¬ t0 ≤ tStar - cfg.windowMs :=
        hwin t0 (List.mem_cons_self _ _) tStar
          (List.mem_append_right _ (List.mem_singleton_self _))
      simp only [calcResetSec]
      omega
    have hmw : (middleware cfg (.ok false) (.ok k) .noRedis (t0 :: ts) tStar).1
        = .deny429
            { limit := cfg.maxRequests
              remaining := max 0 (cfg.maxRequests
                - ((hitMemory cfg (t0 :: ts) tStar).2.count : Int))
              resetSec := calcResetSec cfg (hitMemory cfg (t0 :: ts) tStar).2.now
                (hitMemory cfg (t0 :: ts) tStar).2.oldestScore }
            (calcResetSec cfg (hitMemory cfg (t0 :: ts) tStar).2.now
              (hitMemory cfg (t0 :: ts) tStar).2.oldestScore) := by
      simp only [middleware]
      rw [if_pos hcount]
    refine ⟨{ limit := cfg.maxRequests
              remaining := max 0 (cfg.maxRequests
                - ((hitMemory cfg (t0 :: ts) tStar).2.count : Int))
              resetSec := calcResetSec cfg (hitMemory cfg (t0 :: ts) tStar).2.now
                (hitMemory cfg (t0 :: ts) tStar).2.oldestScore }, ?_, ?_⟩
    · rw [hfill]
      exact hmw
    · have : (hitMemory cfg (t0 :: ts) tStar).2.now = tStar ∧
          (hitMemory cfg (t0 :: ts) tStar).2.oldestScore = t0 := by
        rw [hsnap]
        exact ⟨rfl, rfl⟩
      simp only [this.1, this.2]
      exact hreset
  · intro cfg k mem now hold hmax
    have hstep := hitMemory_all_pruned cfg mem now hold
    have hcount : ¬ (((hitMemory cfg mem now).2.count : Int) > cfg.maxRequests) := by
      rw [hstep]
      push_cast
      omega
    refine ⟨{ limit := cfg.maxRequests
              remaining := max 0 (cfg.maxRequests - ((hitMemory cfg mem now).2.count : Int))
              resetSec := calcResetSec cfg (hitMemory cfg mem now).2.now
                (hitMemory cfg mem now).2.oldestScore }, ?_⟩
    simp only [middleware]
    rw [if_neg hcount]
  · intro cfg k backend mem now
    exact middleware_headers_always cfg k backend mem now

/-- Witness for C6: with a 1000 ms window and a limit of 2, hits at 10 and 20
are admitted, a third at 30 is denied with a positive `resetSeconds` equal to
the `Retry-After`, and a hit at 1030 (window lapsed) is admitted again; the
denial carries the full header set. -/
theorem rateLimiter_sliding_window_witness :
    (∃ h, (middleware ⟨1000, 2⟩ (.ok false) (.ok "k") .noRedis
             (hitAll ⟨1000, 2⟩ [] [10]) 20).1 = .next (some h)) ∧
    (∃ h, (middleware ⟨1000, 2⟩ (.ok false) (.ok "k") .noRedis
             (hitAll ⟨1000, 2⟩ [] [10, 20]) 30).1 = .deny429 h h.resetSec ∧ 0 < h.resetSec) ∧
    (∃ h, (middleware ⟨1000, 2⟩ (.ok false) (.ok "k") .noRedis [10, 20, 30] 1030).1
            = .next (some h)) := by
  refine ⟨?_, ?_, ?_⟩
  · exact rateLimiter_sliding_window.1 ⟨1000, 2⟩ "k" [10] 20 [] (by decide) (by decide)
  · exact rateLimiter_sliding_window.2.1 ⟨1000, 2⟩ "k" 10 [20] 30 (by decide) (by decide)
      (by decide)
  · exact rateLimiter_sliding_window.2.2.1 ⟨1000, 2⟩ "k" [10, 20, 30] 1030 (by decide)
      (by decide)

/-- On a sorted timestamp list, dropping the leading expired run is the same
as filtering out every expired timestamp. -/
theorem sorted_dropWhile_eq_filter (ws : Int) (l : List Int)
    (hs : List.Sorted (· ≤ ·) l) :
    l.dropWhile (fun t => decide (t ≤ ws)) = l.filter (fun t => decide (ws < t)) := by
  induction l with
  | nil => rfl
  | cons a l ih =>
    have hpair := List.sorted_cons.mp hs
    by_cases ha : a ≤ ws
    · rw [List.dropWhile_cons, if_pos (by simpa using ha)]
      rw [List.filter_cons_of_neg (by simpa using ha)]
      exact ih hpair.2
    · rw [List.dropWhile_cons, if_neg (by simpa using ha)]
      rw [List.filter_cons_of_pos (by simpa using ha)]
      congr 1
      symm
      apply List.filter_eq_self.mpr
      intro x hx
      have hax : a ≤ x := hpair.1 x hx
      simpa using lt_of_lt_of_le (not_le.mp ha) hax

/-- C7 (amended). After each hit — admitted or denied alike — the per-key
window holds exactly the previous timestamps still inside the trailing
`windowMs` plus the current hit's timestamp: expired timestamps are pruned on
every hit, but denied requests DO contribute their timestamp to the window
(both backends record the hit before counting). For the in-memory backend
this holds on sorted (chronological) windows, which is the state reached by
hits at non-decreasing times; the sorted-set backend needs no hypothesis. -/
theorem rateLimiter_window_contents_amended (cfg : RLConfig) (mem : List Int) (now : Int) :
    (List.Sorted (· ≤ ·) mem →
      (hitMemory cfg mem now).1
        = mem.filter (fun t => decide (now - cfg.windowMs < t)) ++ [now]) ∧
    (hitRedisModel cfg mem now).1
      = mem.filter (fun s => decide (now - cfg.windowMs < s)) ++ [now] := by
  constructor
  · intro hs
    simp only [hitMemory]
    rw [sorted_dropWhile_eq_filter (now - cfg.windowMs) mem hs]
  · rfl

/-- Witness for C7 (amended): a hit at 12 over the sorted window `[1, 5]`
with a 10 ms window prunes the expired `1` and appends `12` — for both
backends. -/
theorem rateLimiter_window_contents_amended_witness :
    (hitMemory ⟨10, 5⟩ [1, 5] 12).1 = [5, 12] ∧
    (hitRedisModel ⟨10, 5⟩ [1, 5] 12).1 = [5, 12] := by
  constructor
  · have h := (rateLimiter_window_contents_amended ⟨10, 5⟩ [1, 5] 12).1
      (by simp [List.sorted_cons])
    simpa using h
  · have h := (rateLimiter_window_contents_amended ⟨10, 5⟩ [1, 5] 12).2
    simpa using h

/-- C7 counterexample: with limit 1 and window `[10]`, the hit at 20 is
denied (429), yet its timestamp 20 is recorded in the window — the claim that
denied requests do not contribute timestamps to the window is false on the
code (`_hitMemory` pushes `now` before the middleware compares the count,
and `_hitRedis` likewise ZADDs before ZCARD). -/
theorem rateLimiter_window_counterexample :
    (middleware ⟨1000, 1⟩ (.ok false) (.ok "k") .noRedis [10] 20).1
      = .deny429 { limit := 1, remaining := 0, resetSec := 1 } 1 ∧
    (middleware ⟨1000, 1⟩ (.ok false) (.ok "k") .noRedis [10] 20).2 = [10, 20] := by
  exact ⟨by decide, by decide⟩

/-- C8. The limiter never fails closed: when the ready Redis path throws, the
middleware transparently degrades to the in-process window (same decision and
same state as with no Redis configured at all); and an error thrown by the
`allow` or key-resolver callback lands in the outer catch, which passes the
request through untouched. The middleware is total — it always produces a
decision, never an error. -/
theorem rateLimiter_fail_open (cfg : RLConfig) (k : String) (e : JsErr)
    (backend : RedisBackend) (mem : List Int) (now : Int) :
    middleware cfg (.ok false) (.ok k) (.ready (.error e)) mem now
      = middleware cfg (.ok false) (.ok k) .noRedis mem now ∧
    middleware cfg (.error e) (.ok k) backend mem now = (.next none, mem) ∧
    middleware cfg (.ok false) (.error e) backend mem now = (.next none, mem) := by
  refine ⟨rfl, rfl, ?_⟩
  cases backend with
  | ready attempt => rfl
  | connecting => rfl
  | noRedis => rfl

/-- One candidate file of a cleanup pass (`utils/cleanup.js` lines 194-199):
name, modification time and size, after the type/prefix/path filters. -/
structure FileRec where
  name : String
  mtimeMs : Int
  size : Int
deriving Repr, DecidableEq

/-- Stable insertion by ascending `mtimeMs` (equal keys keep their original
relative order, like the JS stable `Array.prototype.sort`). -/
def insertByMtime (f : FileRec) : List FileRec → List FileRec
  | [] => [f]
  | g :: rest =>
    if f.mtimeMs < g.mtimeMs then f :: g :: rest else g :: insertByMtime f rest

/-- `files.sort((a, b) => a.mtimeMs - b.mtimeMs)` — a stable ascending sort
by modification time. -/
def sortByMtime : List FileRec → List FileRec
  | [] => []
  | f :: rest => insertByMtime f (sortByMtime rest)

/-- The cap-enforcement loop of `performCleanup` (`utils/cleanup.js` lines
232-243): while the survivors exceed the file-count cap or the byte cap,
shift and delete the oldest file, discounting its size. Returns the deleted
names (in order) and the remaining files. -/
def trimLoop (maxFiles maxBytes : Int) :
    List FileRec → Int → List String → List String × List FileRec
  | [], _, deletedAcc => (deletedAcc, [])
  | f :: rest, totalBytes, deletedAcc =>
    if (((f :: rest).length : Int) > maxFiles ∨ totalBytes > maxBytes) then
      trimLoop maxFiles maxBytes rest (totalBytes - f.size) (deletedAcc ++ [f.name])
    else (deletedAcc, f :: rest)

/-- `performCleanup` (`utils/cleanup.js` lines 169-257) on its candidate
list, with every delete assumed to succeed: step 1 deletes every file whose
modification time is strictly older than `now - retentionMs` (regardless of
the caps), then step 2 sorts the survivors oldest-first and trims until both
the file-count cap and the byte cap hold. Returns the deleted names (old
files first, then trimmed files) and the remaining files. -/
def performCleanup (retentionMs maxFiles maxBytes : Int) (now : Int)
    (files : List FileRec) : List String × List FileRec :=
  let oldCutoff := now - retentionMs
  let oldFiles := files.filter (fun f => decide (f.mtimeMs < oldCutoff))
  let survivors := files.filter (fun f => !decide (f.mtimeMs < oldCutoff))
  let totalBytes := (survivors.map (fun f => f.size)).sum
  let sorted := sortByMtime survivors
  let trimmed := trimLoop maxFiles maxBytes sorted totalBytes []
  (oldFiles.map (fun f => f.name) ++ trimmed.1, trimmed.2)

/-- The stable insertion grows the list by one. -/
theorem insertByMtime_length (f : FileRec) (l : List FileRec) :
    (insertByMtime f l).length = l.length + 1 := by
  induction l with
  | nil => rfl
  | cons g rest ih =>
    rw [insertByMtime]
    split
    · simp
    · simp [ih]

/-- Sorting preserves length. -/
theorem sortByMtime_length (l : List FileRec) :
    (sortByMtime l).length = l.length := by
  induction l with
  | nil => rfl
  | cons f rest ih =>
    rw [sortByMtime, insertByMtime_length, ih]
    rfl

/-- The trim loop deletes nothing when the survivors already satisfy both
caps. -/
theorem trimLoop_no_trim (maxFiles maxBytes : Int) (l : List FileRec)
    (tb : Int) (acc : List String)
    (hcount : (l.length : Int) ≤ maxFiles) (hbytes : tb ≤ maxBytes) :
    trimLoop maxFiles maxBytes l tb acc = (acc, l) := by
  cases l with
  | nil => rfl
  | cons f rest =>
    rw [trimLoop, if_neg]
    push_neg
    constructor
    · exact hcount
    · exact hbytes

/-- C9 (amended). Files older than the retention window are deleted on every
pass, even when the directory is under both caps; but when the set of files
WITHIN the retention window is under both the byte cap and the file-count
cap, the pass deletes exactly the files older than retention — no file
within retention is deleted, and the survivors all remain. -/
theorem janitor_retention_then_caps_amended (retentionMs maxFiles maxBytes now : Int)
    (files : List FileRec)
    (hcount : (((files.filter
        (fun f => !decide (f.mtimeMs < now - retentionMs))).length : Int) ≤ maxFiles))
    (hbytes : ((files.filter
        (fun f => !decide (f.mtimeMs < now - retentionMs))).map (fun f => f.size)).sum
      ≤ maxBytes) :
    (performCleanup retentionMs maxFiles maxBytes now files).1
      = (files.filter (fun f => decide (f.mtimeMs < now - retentionMs))).map
          (fun f => f.name) ∧
    (performCleanup retentionMs maxFiles maxBytes now files).2
      = sortByMtime (files.filter (fun f => !decide (f.mtimeMs < now - retentionMs))) := by
  have hlen : ((sortByMtime (files.filter
      (fun f => !decide (f.mtimeMs < now - retentionMs)))).length : Int) ≤ maxFiles := by
    rw [sortByMtime_length]
    exact hcount
  have htrim := trimLoop_no_trim maxFiles maxBytes
    (sortByMtime (files.filter (fun f => !decide (f.mtimeMs < now - retentionMs))))
    ((files.filter (fun f => !decide (f.mtimeMs < now - retentionMs))).map
      (fun f => f.size)).sum
    [] hlen hbytes
  constructor
  · simp only [performCleanup, htrim, List.append_nil]
  · simp only [performCleanup, htrim]

/-- Witness for C9 (amended): with retention 1000 ms at `now = 2000`, a file
modified at 0 is deleted while a file modified at 1500 survives, the
directory being far under both caps. -/
theorem janitor_retention_then_caps_amended_witness :
    performCleanup 1000 100 1000000 2000
        [{ name := "old", mtimeMs := 0, size := 10 },
         { name := "new", mtimeMs := 1500, size := 20 }]
      = (["old"], [{ name := "new", mtimeMs := 1500, size := 20 }]) := by
  have h := janitor_retention_then_caps_amended 1000 100 1000000 2000
    [{ name := "old", mtimeMs := 0, size := 10 },
     { name := "new", mtimeMs := 1500, size := 20 }]
    (by decide) (by decide)
  have h1 := h.1
  have h2 := h.2
  have : performCleanup 1000 100 1000000 2000
      [{ name := "old", mtimeMs := 0, size := 10 },
       { name := "new", mtimeMs := 1500, size := 20 }]
      = ((performCleanup 1000 100 1000000 2000
          [{ name := "old", mtimeMs := 0, size := 10 },
           { name := "new", mtimeMs := 1500, size := 20 }]).1,
         (performCleanup 1000 100 1000000 2000
          [{ name := "old", mtimeMs := 0, size := 10 },
           { name := "new", mtimeMs := 1500, size := 20 }]).2) := rfl
  rw [this, h1, h2]
  decide

/-- C9 counterexample: a directory holding one file of 10 bytes is far under
a 100-file / 1,000,000-byte cap, yet a cleanup pass at `now = 2000` with a
1000 ms retention deletes the file (modified at 0), because retention
deletion is unconditional — the claim that nothing is deleted in an
under-caps directory is false on the code. -/
theorem janitor_under_caps_counterexample :
    (((([({ name := "a", mtimeMs := 0, size := 10 } : FileRec)]).length : Int) ≤ 100) ∧
      ((([({ name := "a", mtimeMs := 0, size := 10 } : FileRec)]).map
        (fun f => f.size)).sum ≤ 1000000)) ∧
    performCleanup 1000 100 1000000 2000 [{ name := "a", mtimeMs := 0, size := 10 }]
      = (["a"], []) := by
  refine ⟨⟨by decide, by decide⟩, by decide⟩

end Vectoria
